import Mathlib

/-!
Verification of the LangChain embedding handler
(`langchain_embedding_handler.py`): backend-alias resolution,
configuration round-trip through `construct_model_from_args`, row
serialization, and the batched embedding executor of `predict` with its
per-document fallback.

Machine-level conventions of the embedding: Python dicts are ordered
association lists with unique keys; a dict-mutating call (`pop`,
assignment) is threaded explicitly, so a function that mutates its
argument returns the argument's final state alongside its result; a
raised exception is an `Except.error` carrying `str(e)`; cell values of a
dataframe are carried in their runtime textual representation, which is
all the handler ever reads of them.
-/

/-- Python `sep.join(parts)`. -/
def joinSep (sep : String) : List String → String
  | [] => ""
  | [x] => x
  | x :: xs => x ++ sep ++ joinSep sep xs

/-- Python `repr` of a string as it appears inside a list display:
single-quoted (none of the handler's column names needs escaping). -/
def pyQuote (s : String) : String := "'" ++ s ++ "'"

/-- Python `str` of a list of strings, e.g. `['a', 'b']`. -/
def pyListRepr (l : List String) : String :=
  "[" ++ joinSep ", " (l.map pyQuote) ++ "]"

/-- `str(pandas.Index(cols))`, e.g. `Index(['a', 'b'], dtype='object')`:
the form `{df.columns}` takes inside the f-string of line 179. -/
def indexRepr (cols : List String) : String :=
  "Index(" ++ pyListRepr cols ++ ", dtype=" ++ pyQuote "object" ++ ")"

/-- The backquote character MindsDB strips from quoted column names. -/
def backquoteChar : Char := Char.ofNat 96

/-- Python `s.strip(c)`: remove every leading and trailing occurrence of
the character `c`. -/
def stripChar (c : Char) (s : String) : String :=
  String.mk (((s.toList.dropWhile (· = c)).reverse.dropWhile (· = c)).reverse)

/-- `col.strip("` + `")` of lines 139, 169 (written with the quoted
backquote character). -/
def stripBackquotes (s : String) : String := stripChar backquoteChar s

/-- Engine of Python `str.replace`: scan left to right, replacing each
non-overlapping occurrence of `pat`; `fuel` bounds the recursion and is
called with the list's length. An empty pattern is left alone (the
handler only ever replaces the non-empty pattern `"Embeddings"`). -/
def replaceChars (pat rep : List Char) : Nat → List Char → List Char
  | _, [] => []
  | 0, l => l
  | fuel + 1, c :: rest =>
    if pat ≠ [] ∧ pat.isPrefixOf (c :: rest) then
      rep ++ replaceChars pat rep fuel ((c :: rest).drop pat.length)
    else
      c :: replaceChars pat rep fuel rest

/-- Python `s.replace(pat, rep)`. -/
def strReplace (s pat rep : String) : String :=
  String.mk (replaceChars pat.toList rep.toList s.toList.length s.toList)

/-- Python `str.lower()` on ASCII letters, which is all the registry's
class names contain. -/
def lowerChar (c : Char) : Char :=
  if 65 ≤ c.toNat ∧ c.toNat ≤ 90 then Char.ofNat (c.toNat + 32) else c

/-- Python `s.lower()`. -/
def strLower (s : String) : String := String.mk (s.toList.map lowerChar)

/-- Python `s.startswith(pre)`. -/
def strStartsWith (s pre : String) : Bool := pre.toList.isPrefixOf s.toList

/-- `needle` occurs verbatim inside `hay`: used to state that an error
message names a column or an identifier. -/
def strContains (needle hay : String) : Prop :=
  needle.toList <:+: hay.toList

instance (needle hay : String) : Decidable (strContains needle hay) := by
  unfold strContains; infer_instance

/-- A Python dict with string keys: an ordered association list with
unique keys, insertion order preserved. -/
abbrev Dict (β : Type) : Type := List (String × β)

/-- `d.get(k)` / `k in d`. -/
def dictGet {β : Type} : Dict β → String → Option β
  | [], _ => none
  | (k', v) :: t, k => if k' = k then some v else dictGet t k

/-- `d[k] = v`: replace the value in place when the key is present
(keeping its position), append at the end otherwise. -/
def dictSet {β : Type} : Dict β → String → β → Dict β
  | [], k, v => [(k, v)]
  | (k', v') :: t, k, v =>
    if k' = k then (k, v) :: t else (k', v') :: dictSet t k v

/-- The removal effect of `d.pop(k, default)`: the dict without key `k`. -/
def dictErase {β : Type} : Dict β → String → Dict β
  | [], _ => []
  | (k', v) :: t, k => if k' = k then dictErase t k else (k', v) :: dictErase t k

/-- A configuration value: a string, a list of strings (the shape
`input_columns` takes), or Python's `None`. -/
inductive JVal where
  | s (v : String)
  | ls (v : List String)
  | null
deriving DecidableEq, Repr

/-- A stored configuration (`user_args`): a dict of `JVal`s. -/
abbrev Args : Type := Dict JVal

/-- `LangchainEmbeddingHandler.DEFAULT_EMBEDDING_CLASS` (line 112). -/
def DEFAULT_EMBEDDING_CLASS : String := "OpenAIEmbeddings"

/-- `EMBEDDING_MODELS` (lines 22–41): the hard-coded `VLLM`/`FastAPI`
aliases plus, for each embedding class discovered in
`langchain_community.embeddings` (the abstract `classes` list, a
collaborator outside this repository), the class name with every
`"Embeddings"` occurrence removed, under both its natural case and its
lower case. -/
def EMBEDDING_MODELS (classes : List String) : Dict String :=
  classes.foldl
    (fun m class_name =>
      let user_friendly_name := strReplace class_name "Embeddings" ""
      dictSet (dictSet m user_friendly_name class_name)
        (strLower user_friendly_name) class_name)
    [("VLLM", "VLLMEmbeddings"), ("vllm", "VLLMEmbeddings"),
     ("FastAPI", "FastAPIEmbeddings"), ("fastapi", "FastAPIEmbeddings")]

/-- Lines 86–90: map a user-friendly alias through `EMBEDDING_MODELS`
when it is a key there, otherwise keep the literal class name. -/
def resolveClass (M : Dict String) (class_name : String) : String :=
  match dictGet M class_name with
  | some mapped => mapped
  | none => class_name

/-- The value `args.pop("class", DEFAULT_EMBEDDING_CLASS)` produces under
the typing that a present `class` entry holds a string. -/
def getStrD (v : Option JVal) (dflt : String) : String :=
  match v with
  | some (JVal.s c) => c
  | _ => dflt

/-- `construct_model_from_args` (lines 80–104). `dict.pop` mutates the
caller's dict in place, so the state threading is explicit: the pair's
second component is the configuration dict the caller is left holding
when the function returns. Instantiating the backend class itself (lines
91–100, `get_langchain_class` and the pydantic field filter) is an
external effect with no bearing on the configuration bookkeeping; the
resolved class identifier stands for the constructed model. -/
def construct_model_from_args (M : Dict String) (args : Args) : String × Args :=
  let target := dictGet args "target"
  let args := dictErase args "target"
  let class_alias := getStrD (dictGet args "class") DEFAULT_EMBEDDING_CLASS
  let args := dictErase args "class"
  let class_name := resolveClass M class_alias
  let args :=
    match target with
    | some JVal.null => args
    | some t => dictSet args "target" t
    | none => args
  let args := dictSet args "class" (JVal.s class_name)
  (class_name, args)

/-- The caller's configuration dict as it stands right after the two
`pop` calls of lines 84–85, i.e. during resolution and model
construction. -/
def argsAfterExtraction (args : Args) : Args :=
  dictErase (dictErase args "target") "class"

/-- An embedding vector (the handler never looks inside one). -/
abbrev Vector : Type := List Int

/-- The external embedding backend the model factory returns.
`batchSize?` is `getattr(model, 'batch_size', ...)` (line 183);
`batchErr texts = some msg` when the backend raises on the call
`embed_documents(texts)` with message `msg`, `none` when that call
succeeds; on success the call returns one vector per document through
the deterministic per-document function `embedDoc` (the spec's
length-preserving `embed_many` contract), a per-document error failing
the whole call. -/
structure EmbModel where
  batchSize? : Option Nat
  batchErr : List String → Option String
  embedDoc : String → Except String Vector

instance {ε α : Type} [DecidableEq ε] [DecidableEq α] :
    DecidableEq (Except ε α) := fun a b =>
  match a, b with
  | .ok x, .ok y =>
    if h : x = y then .isTrue (h ▸ rfl) else .isFalse (fun hc => h (by injection hc))
  | .error e, .error f =>
    if h : e = f then .isTrue (h ▸ rfl) else .isFalse (fun hc => h (by injection hc))
  | .ok _, .error _ => .isFalse (fun hc => by injection hc)
  | .error _, .ok _ => .isFalse (fun hc => by injection hc)

/-- The backend call `model.embed_documents(texts)`. -/
def embed_documents (m : EmbModel) (texts : List String) :
    Except String (List Vector) :=
  match m.batchErr texts with
  | some e => .error e
  | none => texts.mapM m.embedDoc

/-- One document of the fallback loop (lines 208–217):
`model.embed_documents([text])[0]`, a failure raised again wrapped in the
message of line 217. -/
def fallbackDoc (m : EmbModel) (text : String) : Except String Vector :=
  match embed_documents m [text] with
  | .ok vs => .ok vs.headI
  | .error inner_e =>
    .error ("Failed to generate embedding for document. Original error: "
      ++ inner_e)

/-- Lines 199–218: one batch — the batch-level call first, then on its
failure the per-document fallback in order; an individually failing
document aborts the whole call with the wrapping message of line 217. -/
def processBatch (m : EmbModel) (batch_texts : List String) :
    Except String (List Vector) :=
  match embed_documents m batch_texts with
  | .ok batch_embeddings => .ok batch_embeddings
  | .error _ => batch_texts.mapM (fallbackDoc m)

/-- The per-document fallback call `model.embed_documents([text])[0]`
(line 210), before the wrapping of line 217. -/
def embedSingle (m : EmbModel) (text : String) : Except String Vector :=
  match embed_documents m [text] with
  | .ok vs => .ok vs.headI
  | .error e => .error e

/-- `range(0, total_rows, batch_size)` for a positive step. (Python
raises `ValueError` on step 0; every theorem below assumes a positive
batch size.) -/
def batchStarts (total_rows batch_size : Nat) : List Nat :=
  (List.range ((total_rows + batch_size - 1) / batch_size)).map (· * batch_size)

/-- The contiguous batches the loop of lines 191–193 slices out: one
slice `docs[start_idx : start_idx + batch_size]` per loop iteration, in
iteration order. -/
def batchesOf (bs : Nat) (docs : List String) : List (List String) :=
  (batchStarts docs.length bs).map (fun start_idx => (docs.drop start_idx).take bs)

/-- The body of the `for start_idx in range(...)` loop (lines 191–218):
slice the rows (`df.iloc[start_idx:end_idx]`, i.e. take `batch_size`
after dropping `start_idx`), serialize the slice
(`batch_df[input_columns].apply(row_to_document, axis=1)` — `toDoc` is
that per-row serialization), process the batch, and extend
`all_embeddings` with the batch's vectors in order. -/
def batchBody {α : Type} (m : EmbModel) (toDoc : α → String) (rows : List α)
    (all_embeddings : List Vector) (start_idx : Nat) :
    Except String (List Vector) :=
  let batch_size := m.batchSize?.getD 32
  let batch_df := (rows.drop start_idx).take batch_size
  let batch_texts := batch_df.map toDoc
  (processBatch m batch_texts).map (fun bvs => all_embeddings ++ bvs)

/-- Lines 182–220: the batch loop of `predict`, generic in the row type
exactly as the source slices `df` and only then serializes each slice.
A raised exception abandons the accumulated list, which `Except`'s
`foldlM` mirrors. -/
def batchLoop {α : Type} (m : EmbModel) (toDoc : α → String) (rows : List α) :
    Except String (List Vector) :=
  let batch_size := m.batchSize?.getD 32
  (batchStarts rows.length batch_size).foldlM (batchBody m toDoc rows)
    ([] : List Vector)

/-- `row_to_document` (lines 226–239), on the row as the ordered
column-to-value mapping a pandas Series is: `fields` is `row.index`,
`values` is `row.values`, each value already textual. -/
def row_to_document (row : List (String × String)) : String :=
  let fields := row.map Prod.fst
  let values := row.map Prod.snd
  joinSep "\n" ((fields.zip values).map (fun fv => fv.1 ++ ": " ++ fv.2))

/-- A dataframe: ordered column labels and rows of cells. -/
structure DataFrame where
  columns : List String
  rows : List (List String)
deriving DecidableEq, Repr

/-- `row[c]` for a row aligned with `cols`. (The columns are validated
before use, so the `getD` default only covers what pandas would raise
a `KeyError` on.) -/
def colValue (cols : List String) (row : List String) (c : String) : String :=
  row.getD (cols.indexOf c) ""

/-- `batch_df[input_columns].apply(row_to_document, axis=1)` on one row:
select `input_columns` in their given order, then serialize (line 197). -/
def rowDoc (cols input_columns : List String) (row : List String) : String :=
  row_to_document (input_columns.map (fun c => (c, colValue cols row c)))

/-- Line 173: `user_args.get("input_columns") or df.columns.tolist()` —
Python's `or` falls through to the dataframe's columns when the stored
value is missing, `None`, or the empty list. -/
def effectiveInputColumns (user_args : Args) (cols : List String) :
    List String :=
  match dictGet user_args "input_columns" with
  | some (JVal.ls (c :: cs)) => c :: cs
  | _ => cols

/-- The value of `df.copy().assign(**{target: all_embeddings})` (line
223): a fresh copy of the normalized input with one appended column
`target` holding one vector per row. -/
structure PredictResult where
  base : DataFrame
  target : String
  embeddings : List Vector
deriving DecidableEq, Repr

/-- `predict` (lines 159–224). The returned pair's second component is
the caller's dataframe when the call returns or raises: line 170
(`df.columns = cols_dfs`) reassigns the caller's column labels in place,
and that is the only mutation `predict` performs on it. `stored_args`
is what `model_storage.json_get("args")` returned; the abstract backend
`m` is the behavior of the model the factory built. -/
def predict (M : Dict String) (m : EmbModel) (stored_args : Args)
    (df : DataFrame) : Except String PredictResult × DataFrame :=
  let user_args := (construct_model_from_args M stored_args).2
  match dictGet user_args "target" with
  | some (JVal.s target) =>
    let cols_dfs := df.columns.map stripBackquotes
    let df := { df with columns := cols_dfs }
    let input_columns := effectiveInputColumns user_args df.columns
    if input_columns.all (fun col => cols_dfs.contains col) then
      match batchLoop m (rowDoc df.columns input_columns) df.rows with
      | .ok all_embeddings => (.ok ⟨df, target, all_embeddings⟩, df)
      | .error e => (.error e, df)
    else
      (.error ("Input columns " ++ pyListRepr input_columns ++
        " not found in the input dataframe. Available columns are " ++
        indexRepr cols_dfs), df)
  | _ => (.error "KeyError: 'target'", df)

/-- Modelled from the spec: the Configuration Store adapter
(`model_storage.json_get` / `json_set`, whose implementation is not under
`src/`) is durable key-value storage; this handler reads the keys
`"args"` and `"model_class"` and writes only `"args"`. -/
structure ModelStorage where
  argsJson : Option Args
  modelClassJson : Option String
deriving DecidableEq, Repr

/-- `create` (lines 118–157): infer `input_columns` when absent (from the
training dataframe's columns, dropping `__mindsdb`-private columns and
the target, then unquoting), validate the configuration by constructing
the model once, pin `target`, and persist the mutated `user_args`. -/
def create (M : Dict String) (target : String) (df? : Option DataFrame)
    (user_args : Args) (st : ModelStorage) : ModelStorage :=
  let user_args :=
    match dictGet user_args "input_columns", df? with
    | none, some df =>
      dictSet user_args "input_columns"
        (JVal.ls ((df.columns.filter
          (fun col => !(strStartsWith col "__mindsdb") && !(col == target))).map
            stripBackquotes))
    | none, none => dictSet user_args "input_columns" (JVal.ls [])
    | some _, _ => user_args
  let user_args := (construct_model_from_args M user_args).2
  let target := if target = "" then "embeddings" else target
  let user_args := dictSet user_args "target" (JVal.s target)
  { st with argsJson := some user_args }

/-- The textual representation a configuration value takes inside a
dataframe cell of `describe`. -/
def jvalStr (v : JVal) : String :=
  match v with
  | JVal.s s => s
  | JVal.ls l => pyListRepr l
  | JVal.null => "None"

/-- `describe` (lines 248–263): the `args` view lists the persisted
configuration as key/value pairs; the `metadata` view reads the storage
key `"model_class"`; anything else lists the two view names. (The source
parameter is called `attribute`, a Lean keyword, hence `attr` here.) -/
def describe (st : ModelStorage) (attr : Option String) : DataFrame :=
  match attr with
  | some "args" =>
    ⟨["key", "value"], (st.argsJson.getD []).map (fun kv => [kv.1, jvalStr kv.2])⟩
  | some "metadata" =>
    ⟨["key", "value"],
      [["model_class",
        match st.modelClassJson with
        | some s => s
        | none => "None"]]⟩
  | _ => ⟨["tables"], [["args"], ["metadata"]]⟩

/-! ## Dictionary lemmas -/

theorem dictGet_dictSet_self {β : Type} (a : Dict β) (k : String) (v : β) :
    dictGet (dictSet a k v) k = some v := by
  induction a with
  | nil => simp [dictSet, dictGet]
  | cons p t ih =>
    obtain ⟨k', v'⟩ := p
    by_cases hk : k' = k <;> simp [dictSet, dictGet, hk, ih]

theorem dictGet_dictSet_ne {β : Type} (a : Dict β) (k k' : String) (v : β)
    (h : k' ≠ k) : dictGet (dictSet a k v) k' = dictGet a k' := by
  have h' : k ≠ k' := Ne.symm h
  induction a with
  | nil => simp [dictSet, dictGet, h']
  | cons p t ih =>
    obtain ⟨k'', v'⟩ := p
    by_cases hk : k'' = k
    · subst hk
      simp [dictSet, dictGet, h']
    · simp [dictSet, dictGet, hk, ih]

theorem dictGet_dictErase_self {β : Type} (a : Dict β) (k : String) :
    dictGet (dictErase a k) k = none := by
  induction a with
  | nil => simp [dictErase, dictGet]
  | cons p t ih =>
    obtain ⟨k', v'⟩ := p
    by_cases hk : k' = k <;> simp [dictErase, dictGet, hk, ih]

theorem dictGet_dictErase_ne {β : Type} (a : Dict β) (k k' : String)
    (h : k' ≠ k) : dictGet (dictErase a k) k' = dictGet a k' := by
  have h' : k ≠ k' := Ne.symm h
  induction a with
  | nil => simp [dictErase, dictGet]
  | cons p t ih =>
    obtain ⟨k'', v'⟩ := p
    by_cases hk : k'' = k
    · subst hk
      simp [dictErase, dictGet, h', ih]
    · simp [dictErase, dictGet, hk, ih]

/-! ## Except and batch-loop machinery -/

theorem except_map_ok {ε α β : Type} (f : α → β) (a : α) :
    (Except.ok a : Except ε α).map f = .ok (f a) := rfl

theorem except_map_error {ε α β : Type} (f : α → β) (e : ε) :
    (Except.error e : Except ε α).map f = (.error e : Except ε β) := rfl

theorem except_bind_ok {ε α β : Type} (a : α) (f : α → Except ε β) :
    (Except.ok a : Except ε α) >>= f = f a := rfl

theorem except_bind_error {ε α β : Type} (e : ε) (f : α → Except ε β) :
    (Except.error e : Except ε α) >>= f = .error e := rfl

theorem batchStarts_zero (bs : Nat) (hbs : 0 < bs) : batchStarts 0 bs = [] := by
  unfold batchStarts
  have h : (bs - 1) / bs = 0 := Nat.div_eq_of_lt (by omega)
  simp [h]

theorem batchStarts_succ (n bs : Nat) (hbs : 0 < bs) (hn : 0 < n) :
    batchStarts n bs = 0 :: (batchStarts (n - bs) bs).map (· + bs) := by
  unfold batchStarts
  have h1 : (n + bs - 1) / bs = (n - 1) / bs + 1 := by
    have he : n + bs - 1 = (n - 1) + bs := by omega
    rw [he, Nat.add_div_right _ hbs]
  have h2 : (n - bs + bs - 1) / bs = (n - 1) / bs := by
    by_cases hc : bs ≤ n
    · have he : n - bs + bs - 1 = n - 1 := by omega
      rw [he]
    · have e0 : n - bs = 0 := by omega
      have ha : (0 + bs - 1) / bs = 0 := Nat.div_eq_of_lt (by omega)
      have hb : (n - 1) / bs = 0 := Nat.div_eq_of_lt (by omega)
      rw [e0, ha, hb]
  rw [h1, h2, List.range_succ_eq_map]
  simp [List.map_map, Function.comp, Nat.succ_mul]

theorem batchBody_shift {α : Type} (m : EmbModel) (toDoc : α → String)
    (rows : List α) (acc : List Vector) (s : Nat) :
    batchBody m toDoc rows acc (s + m.batchSize?.getD 32)
      = batchBody m toDoc (rows.drop (m.batchSize?.getD 32)) acc s := by
  unfold batchBody
  rw [List.drop_drop, Nat.add_comm]

theorem foldlM_batchBody_acc {α : Type} (m : EmbModel) (toDoc : α → String)
    (rows : List α) (starts : List Nat) :
    ∀ acc : List Vector,
      starts.foldlM (batchBody m toDoc rows) acc
        = (starts.foldlM (batchBody m toDoc rows) []).map (fun r => acc ++ r) := by
  induction starts with
  | nil =>
    intro acc
    show Except.ok acc = Except.map (fun r => acc ++ r) (Except.ok [])
    rw [except_map_ok, List.append_nil]
  | cons s t ih =>
    intro acc
    rw [List.foldlM_cons, List.foldlM_cons]
    have hb : ∀ a : List Vector, batchBody m toDoc rows a s
        = (processBatch m
            (((rows.drop s).take (m.batchSize?.getD 32)).map toDoc)).map
          (fun bvs => a ++ bvs) := fun a => rfl
    cases hp : processBatch m
        (((rows.drop s).take (m.batchSize?.getD 32)).map toDoc) with
    | error e => simp only [hb, hp, except_map_error, except_bind_error]
    | ok v =>
      simp only [hb, hp, except_map_ok, except_bind_ok, List.nil_append]
      rw [ih (acc ++ v), ih v]
      cases hq : t.foldlM (batchBody m toDoc rows) [] with
      | error e => simp [except_map_error]
      | ok r => simp [except_map_ok, List.append_assoc]

theorem batchLoop_nil {α : Type} (m : EmbModel) (toDoc : α → String)
    (hbs : 0 < m.batchSize?.getD 32) : batchLoop m toDoc ([] : List α) = .ok [] := by
  simp only [batchLoop]
  rw [List.length_nil, batchStarts_zero _ hbs]
  rfl

theorem batchLoop_cons {α : Type} (m : EmbModel) (toDoc : α → String)
    (rows : List α) (hbs : 0 < m.batchSize?.getD 32) (hne : rows ≠ []) :
    batchLoop m toDoc rows
      = (processBatch m ((rows.take (m.batchSize?.getD 32)).map toDoc)) >>=
          (fun bvs => (batchLoop m toDoc (rows.drop (m.batchSize?.getD 32))).map
            (fun rest => bvs ++ rest)) := by
  have hn : 0 < rows.length := List.length_pos.mpr hne
  simp only [batchLoop]
  rw [batchStarts_succ rows.length _ hbs hn, List.foldlM_cons]
  have hb0 : batchBody m toDoc rows [] 0
      = (processBatch m ((rows.take (m.batchSize?.getD 32)).map toDoc)).map
        (fun bvs => [] ++ bvs) := by
    simp only [batchBody]
    rw [List.drop_zero]
  cases hp : processBatch m ((rows.take (m.batchSize?.getD 32)).map toDoc) with
  | error e =>
    simp only [hb0, hp, except_map_error, except_bind_error]
  | ok v =>
    simp only [hb0, hp, except_map_ok, except_bind_ok, List.nil_append]
    rw [List.foldlM_map]
    have hshift : (fun (x : List Vector) (y : Nat) =>
        batchBody m toDoc rows x (y + m.batchSize?.getD 32))
        = batchBody m toDoc (rows.drop (m.batchSize?.getD 32)) := by
      funext x y
      exact batchBody_shift m toDoc rows x y
    rw [hshift, List.length_drop]
    exact foldlM_batchBody_acc m toDoc (rows.drop (m.batchSize?.getD 32))
      (batchStarts (rows.length - m.batchSize?.getD 32) (m.batchSize?.getD 32)) v

/-! ## mapM and per-document lemmas -/

theorem mapM_ok_of_all_ok {γ : Type} (g : γ → Except String Vector)
    (h : γ → Vector) (l : List γ) (hg : ∀ a ∈ l, g a = .ok (h a)) :
    l.mapM g = .ok (l.map h) := by
  induction l with
  | nil => rfl
  | cons a t ih =>
    rw [List.mapM_cons, hg a (List.mem_cons_self a t), except_bind_ok,
      ih (fun b hb => hg b (List.mem_cons_of_mem a hb))]
    rfl

theorem mapM_exists_ok {γ : Type} (g : γ → Except String Vector) (l : List γ)
    (hg : ∀ a ∈ l, ∃ b, g a = .ok b) : ∃ vs, l.mapM g = .ok vs := by
  induction l with
  | nil => exact ⟨[], rfl⟩
  | cons a t ih =>
    obtain ⟨b, hb⟩ := hg a (List.mem_cons_self a t)
    obtain ⟨vs, hvs⟩ := ih (fun c hc => hg c (List.mem_cons_of_mem a hc))
    exact ⟨b :: vs, by rw [List.mapM_cons, hb, except_bind_ok, hvs]; rfl⟩

theorem mapM_error_at (g : String → Except String Vector) (l : List String)
    (k : Nat) (E : String) (hk : k < l.length)
    (hprev : ∀ j, j < k → ∃ b, g (l.getD j "") = .ok b)
    (hfail : g (l.getD k "") = .error E) :
    l.mapM g = .error E := by
  induction l generalizing k with
  | nil => simp at hk
  | cons a t ih =>
    rw [List.mapM_cons]
    cases k with
    | zero =>
      have ha : g a = .error E := by simpa using hfail
      rw [ha, except_bind_error]
    | succ k' =>
      obtain ⟨b, hb⟩ := hprev 0 (Nat.succ_pos _)
      have ha : g a = .ok b := by simpa using hb
      rw [ha, except_bind_ok]
      have ht : t.mapM g = .error E :=
        ih k' (by simpa using hk)
          (fun j hj => by simpa using hprev (j + 1) (by omega))
          (by simpa using hfail)
      rw [ht]
      rfl

theorem mapM_singleton (g : String → Except String Vector) (d : String)
    (v : Vector) (h : g d = .ok v) : [d].mapM g = .ok [v] := by
  rw [List.mapM_cons, h, except_bind_ok, List.mapM_nil]
  rfl

theorem mapM_singleton_error (g : String → Except String Vector) (d : String)
    (e : String) (h : g d = .error e) : [d].mapM g = .error e := by
  rw [List.mapM_cons, h, except_bind_error]

theorem embed_documents_err (m : EmbModel) (texts : List String) (e : String)
    (h : m.batchErr texts = some e) : embed_documents m texts = .error e := by
  unfold embed_documents
  rw [h]

theorem embed_documents_single_ok (m : EmbModel) (d : String) (v : Vector)
    (h1 : m.batchErr [d] = none) (h2 : m.embedDoc d = .ok v) :
    embed_documents m [d] = .ok [v] := by
  unfold embed_documents
  rw [h1]
  exact mapM_singleton m.embedDoc d v h2

theorem embed_documents_single_error (m : EmbModel) (d : String) (e : String)
    (h1 : m.batchErr [d] = none) (h2 : m.embedDoc d = .error e) :
    embed_documents m [d] = .error e := by
  unfold embed_documents
  rw [h1]
  exact mapM_singleton_error m.embedDoc d e h2

theorem embedSingle_of (m : EmbModel) (d : String) (v : Vector)
    (h1 : m.batchErr [d] = none) (h2 : m.embedDoc d = .ok v) :
    embedSingle m d = .ok v := by
  unfold embedSingle
  rw [embed_documents_single_ok m d v h1 h2]
  rfl

theorem embedSingle_ok_inv (m : EmbModel) (d : String) (v : Vector)
    (h : embedSingle m d = .ok v) :
    m.batchErr [d] = none ∧ m.embedDoc d = .ok v := by
  unfold embedSingle at h
  cases hb : m.batchErr [d] with
  | some e =>
    rw [embed_documents_err m [d] e hb] at h
    exact absurd h (by simp)
  | none =>
    cases hd : m.embedDoc d with
    | error e =>
      rw [embed_documents_single_error m d e hb hd] at h
      exact absurd h (by simp)
    | ok w =>
      rw [embed_documents_single_ok m d w hb hd] at h
      have h' : (Except.ok ([w].headI) : Except String Vector) = .ok v := h
      have hw : w = v := by injection h'
      subst hw
      exact ⟨rfl, rfl⟩

theorem embedSingle_error_inv (m : EmbModel) (d : String) (e : String)
    (h : embedSingle m d = .error e) : embed_documents m [d] = .error e := by
  unfold embedSingle at h
  cases hc : embed_documents m [d] with
  | ok vs => rw [hc] at h; exact absurd h (by simp)
  | error e' => rw [hc] at h; injection h with he; rw [he]

theorem processBatch_map (m : EmbModel) (f : String → Vector)
    (texts : List String) (h1 : ∀ d, m.batchErr [d] = none)
    (h2 : ∀ d, m.embedDoc d = .ok (f d)) :
    processBatch m texts = .ok (texts.map f) := by
  unfold processBatch
  cases hb : m.batchErr texts with
  | none =>
    rw [show embed_documents m texts = .ok (texts.map f) by
      unfold embed_documents
      rw [hb]
      exact mapM_ok_of_all_ok m.embedDoc f texts (fun a _ => h2 a)]
  | some e =>
    rw [embed_documents_err m texts e hb]
    exact mapM_ok_of_all_ok (fallbackDoc m) f texts (fun a _ => by
      unfold fallbackDoc
      rw [embed_documents_single_ok m a (f a) (h1 a) (h2 a)]
      rfl)

theorem processBatch_of_singles (m : EmbModel) (texts : List String)
    (h : ∀ d ∈ texts, ∃ v, embedSingle m d = .ok v) :
    ∃ vs, processBatch m texts = .ok vs := by
  unfold processBatch
  cases hc : embed_documents m texts with
  | ok vs => exact ⟨vs, rfl⟩
  | error e =>
    exact mapM_exists_ok (fallbackDoc m) texts (fun a ha => by
      obtain ⟨v, hv⟩ := h a ha
      have hinv := embedSingle_ok_inv m a v hv
      refine ⟨v, ?_⟩
      unfold fallbackDoc
      rw [embed_documents_single_ok m a v hinv.1 hinv.2]
      rfl)

theorem batchLoop_map {α : Type} (m : EmbModel) (f : String → Vector)
    (toDoc : α → String) (rows : List α) (hbs : 0 < m.batchSize?.getD 32)
    (h1 : ∀ d, m.batchErr [d] = none) (h2 : ∀ d, m.embedDoc d = .ok (f d)) :
    batchLoop m toDoc rows = .ok ((rows.map toDoc).map f) := by
  suffices H : ∀ n (rows : List α), rows.length = n →
      batchLoop m toDoc rows = .ok ((rows.map toDoc).map f) from
    H rows.length rows rfl
  intro n
  induction n using Nat.strong_induction_on with
  | _ n ih =>
    intro rows hlen
    by_cases hne : rows = []
    · subst hne
      rw [batchLoop_nil m toDoc hbs]
      rfl
    · have hn : 0 < rows.length := List.length_pos.mpr hne
      rw [batchLoop_cons m toDoc rows hbs hne,
        processBatch_map m f _ h1 h2, except_bind_ok]
      have hdlt : (rows.drop (m.batchSize?.getD 32)).length < n := by
        rw [List.length_drop]
        omega
      rw [ih _ hdlt (rows.drop (m.batchSize?.getD 32)) rfl, except_map_ok]
      congr 1
      rw [← List.map_append, ← List.map_append, List.take_append_drop]

/-! ## Index and partition lemmas -/

theorem getD_take (l : List String) (bs j : Nat) (hj : j < bs) :
    (l.take bs).getD j "" = l.getD j "" := by
  induction l generalizing bs j with
  | nil => simp
  | cons a t ih =>
    cases bs with
    | zero => omega
    | succ bs' =>
      cases j with
      | zero => rfl
      | succ j' =>
        rw [List.take_succ_cons, List.getD_cons_succ, List.getD_cons_succ]
        exact ih bs' j' (by omega)

theorem getD_drop (l : List String) (s j : Nat) :
    (l.drop s).getD j "" = l.getD (s + j) "" := by
  induction l generalizing s with
  | nil => simp
  | cons a t ih =>
    cases s with
    | zero => simp
    | succ s' =>
      rw [List.drop_succ_cons, ih s']
      have he : s' + 1 + j = (s' + j) + 1 := by omega
      rw [he, List.getD_cons_succ]

theorem mem_take_getD (l : List String) (bs : Nat) (d : String)
    (hd : d ∈ l.take bs) : ∃ j, j < bs ∧ j < l.length ∧ l.getD j "" = d := by
  obtain ⟨j, hj, he⟩ := List.mem_iff_getElem.mp hd
  have hlen := hj
  rw [List.length_take] at hlen
  have hjb : j < bs := lt_of_lt_of_le hlen (min_le_left _ _)
  have hjl : j < l.length := lt_of_lt_of_le hlen (min_le_right _ _)
  refine ⟨j, hjb, hjl, ?_⟩
  rw [← getD_take l bs j hjb, List.getD_eq_getElem?_getD,
    List.getElem?_eq_getElem hj]
  simpa using he

theorem batchesOf_nil (bs : Nat) (hbs : 0 < bs) : batchesOf bs [] = [] := by
  unfold batchesOf
  rw [List.length_nil, batchStarts_zero _ hbs]
  rfl

theorem batchesOf_cons (bs : Nat) (docs : List String) (hbs : 0 < bs)
    (hne : docs ≠ []) :
    batchesOf bs docs = docs.take bs :: batchesOf bs (docs.drop bs) := by
  unfold batchesOf
  rw [batchStarts_succ docs.length bs hbs (List.length_pos.mpr hne),
    List.map_cons, List.drop_zero, List.map_map, List.length_drop]
  congr 1
  have hfun : ((fun start_idx => List.take bs (List.drop start_idx docs))
        ∘ fun x => x + bs)
      = fun start_idx => List.take bs (List.drop start_idx (List.drop bs docs)) := by
    funext s
    show List.take bs (List.drop (s + bs) docs)
      = List.take bs (List.drop s (List.drop bs docs))
    rw [List.drop_drop, Nat.add_comm]
  rw [hfun]

theorem batchesOf_flatten (bs : Nat) (docs : List String) (hbs : 0 < bs) :
    (batchesOf bs docs).flatten = docs := by
  suffices H : ∀ n (docs : List String), docs.length = n →
      (batchesOf bs docs).flatten = docs from H docs.length docs rfl
  intro n
  induction n using Nat.strong_induction_on with
  | _ n ih =>
    intro docs hlen
    by_cases hne : docs = []
    · subst hne
      rw [batchesOf_nil bs hbs]
      rfl
    · have hn : 0 < docs.length := List.length_pos.mpr hne
      rw [batchesOf_cons bs docs hbs hne, List.flatten_cons]
      have hdlt : (docs.drop bs).length < n := by
        rw [List.length_drop]
        omega
      rw [ih _ hdlt (docs.drop bs) rfl, List.take_append_drop]

theorem batchesOf_length_le (bs : Nat) (docs : List String) :
    ∀ b ∈ batchesOf bs docs, b.length ≤ bs := by
  intro b hb
  unfold batchesOf at hb
  obtain ⟨s, _, hs⟩ := List.mem_map.mp hb
  rw [← hs, List.length_take]
  exact min_le_left _ _

theorem batchesOf_dropLast_length (bs : Nat) (docs : List String)
    (hbs : 0 < bs) : ∀ b ∈ (batchesOf bs docs).dropLast, b.length = bs := by
  suffices H : ∀ n (docs : List String), docs.length = n →
      ∀ b ∈ (batchesOf bs docs).dropLast, b.length = bs from
    H docs.length docs rfl
  intro n
  induction n using Nat.strong_induction_on with
  | _ n ih =>
    intro docs hlen b hb
    by_cases hne : docs = []
    · subst hne
      rw [batchesOf_nil bs hbs] at hb
      simp at hb
    · rw [batchesOf_cons bs docs hbs hne] at hb
      by_cases hrest : docs.drop bs = []
      · rw [hrest, batchesOf_nil bs hbs] at hb
        simp at hb
      · have hrne : batchesOf bs (docs.drop bs) ≠ [] := by
          rw [batchesOf_cons bs (docs.drop bs) hbs hrest]
          simp
        rw [List.dropLast_cons_of_ne_nil hrne] at hb
        rcases List.mem_cons.mp hb with hhead | htail
        · have hlong : bs < docs.length := by
            by_contra hc
            exact hrest (List.drop_eq_nil_of_le (by omega))
          rw [hhead, List.length_take]
          omega
        · have hdlt : (docs.drop bs).length < n := by
            rw [List.length_drop]
            have : 0 < docs.length := List.length_pos.mpr hne
            omega
          exact ih _ hdlt (docs.drop bs) rfl b htail

theorem batchLoop_eq_id {α : Type} (m : EmbModel) (toDoc : α → String)
    (rows : List α) (hbs : 0 < m.batchSize?.getD 32) :
    batchLoop m toDoc rows = batchLoop m id (rows.map toDoc) := by
  suffices H : ∀ n (rows : List α), rows.length = n →
      batchLoop m toDoc rows = batchLoop m id (rows.map toDoc) from
    H rows.length rows rfl
  intro n
  induction n using Nat.strong_induction_on with
  | _ n ih =>
    intro rows hlen
    by_cases hne : rows = []
    · subst hne
      rw [batchLoop_nil m toDoc hbs]
      rw [show List.map toDoc [] = ([] : List String) from rfl,
        batchLoop_nil m id hbs]
    · have hn : 0 < rows.length := List.length_pos.mpr hne
      have hmne : rows.map toDoc ≠ [] := by
        simpa using hne
      rw [batchLoop_cons m toDoc rows hbs hne,
        batchLoop_cons m id (rows.map toDoc) hbs hmne]
      rw [List.map_id, ← List.map_take, ← List.map_drop]
      have hdlt : (rows.drop (m.batchSize?.getD 32)).length < n := by
        rw [List.length_drop]
        omega
      rw [ih _ hdlt (rows.drop (m.batchSize?.getD 32)) rfl]

/-! ## The failure path of the batch executor -/

theorem fallbackDoc_ok (m : EmbModel) (d : String) (v : Vector)
    (h : embedSingle m d = .ok v) : fallbackDoc m d = .ok v := by
  have hinv := embedSingle_ok_inv m d v h
  unfold fallbackDoc
  rw [embed_documents_single_ok m d v hinv.1 hinv.2]
  rfl

theorem fallbackDoc_error (m : EmbModel) (d : String) (ie : String)
    (h : embedSingle m d = .error ie) :
    fallbackDoc m d
      = .error ("Failed to generate embedding for document. Original error: "
        ++ ie) := by
  unfold fallbackDoc
  rw [embedSingle_error_inv m d ie h]

theorem batchLoop_fail (m : EmbModel) (docs : List String) (k : Nat)
    (bmsg ie : String) (hbs : 0 < m.batchSize?.getD 32)
    (hk : k < docs.length)
    (hbf : m.batchErr ((docs.drop
        (k / (m.batchSize?.getD 32) * (m.batchSize?.getD 32))).take
        (m.batchSize?.getD 32)) = some bmsg)
    (hprev : ∀ j, j < k → ∃ v, embedSingle m (docs.getD j "") = .ok v)
    (hkfail : embedSingle m (docs.getD k "") = .error ie) :
    batchLoop m id docs
      = .error ("Failed to generate embedding for document. Original error: "
        ++ ie) := by
  suffices H : ∀ n (docs : List String) (k : Nat), docs.length = n →
      k < docs.length →
      m.batchErr ((docs.drop
        (k / (m.batchSize?.getD 32) * (m.batchSize?.getD 32))).take
        (m.batchSize?.getD 32)) = some bmsg →
      (∀ j, j < k → ∃ v, embedSingle m (docs.getD j "") = .ok v) →
      embedSingle m (docs.getD k "") = .error ie →
      batchLoop m id docs
        = .error ("Failed to generate embedding for document. Original error: "
          ++ ie) from
    H docs.length docs k rfl hk hbf hprev hkfail
  intro n
  induction n using Nat.strong_induction_on with
  | _ n ih =>
    intro docs k hlen hk hbf hprev hkfail
    have hne : docs ≠ [] := by
      intro hc
      subst hc
      simp at hk
    rw [batchLoop_cons m id docs hbs hne, List.map_id]
    by_cases hkbs : k < m.batchSize?.getD 32
    · have hdiv : k / m.batchSize?.getD 32 = 0 := Nat.div_eq_of_lt hkbs
      rw [hdiv, Nat.zero_mul, List.drop_zero] at hbf
      have hk' : k < (docs.take (m.batchSize?.getD 32)).length := by
        rw [List.length_take]
        omega
      have hPB : processBatch m (docs.take (m.batchSize?.getD 32))
          = .error
            ("Failed to generate embedding for document. Original error: "
              ++ ie) := by
        unfold processBatch
        rw [embed_documents_err m _ bmsg hbf]
        refine mapM_error_at (fallbackDoc m) _ k _ hk' ?_ ?_
        · intro j hj
          obtain ⟨v, hv⟩ := hprev j hj
          refine ⟨v, ?_⟩
          rw [getD_take docs _ j (by omega)]
          exact fallbackDoc_ok m _ v hv
        · rw [getD_take docs _ k hkbs]
          exact fallbackDoc_error m _ ie hkfail
      rw [hPB, except_bind_error]
    · push_neg at hkbs
      have hall : ∀ d ∈ docs.take (m.batchSize?.getD 32),
          ∃ v, embedSingle m d = .ok v := by
        intro d hd
        obtain ⟨j, hjb, hjl, hjd⟩ := mem_take_getD docs _ d hd
        obtain ⟨v, hv⟩ := hprev j (by omega)
        rw [hjd] at hv
        exact ⟨v, hv⟩
      obtain ⟨vs, hvs⟩ := processBatch_of_singles m _ hall
      rw [hvs, except_bind_ok]
      have hn0 : 0 < docs.length := List.length_pos.mpr hne
      have hdlt : (docs.drop (m.batchSize?.getD 32)).length < n := by
        rw [List.length_drop]
        omega
      have he : k = (k - m.batchSize?.getD 32) + m.batchSize?.getD 32 := by
        omega
      have hdiv : k / m.batchSize?.getD 32
          = (k - m.batchSize?.getD 32) / m.batchSize?.getD 32 + 1 := by
        calc k / m.batchSize?.getD 32
            = ((k - m.batchSize?.getD 32) + m.batchSize?.getD 32)
              / m.batchSize?.getD 32 := by rw [← he]
          _ = (k - m.batchSize?.getD 32) / m.batchSize?.getD 32 + 1 :=
            Nat.add_div_right _ hbs
      have hbf' : m.batchErr (((docs.drop (m.batchSize?.getD 32)).drop
          ((k - m.batchSize?.getD 32) / (m.batchSize?.getD 32)
            * (m.batchSize?.getD 32))).take (m.batchSize?.getD 32))
          = some bmsg := by
        rw [List.drop_drop]
        have he2 : m.batchSize?.getD 32
            + (k - m.batchSize?.getD 32) / m.batchSize?.getD 32
              * m.batchSize?.getD 32
            = k / m.batchSize?.getD 32 * m.batchSize?.getD 32 := by
          rw [hdiv, Nat.succ_mul]
          omega
        rw [he2]
        exact hbf
      have hprev' : ∀ j, j < k - m.batchSize?.getD 32 →
          ∃ v, embedSingle m ((docs.drop (m.batchSize?.getD 32)).getD j "")
            = .ok v := by
        intro j hj
        rw [getD_drop]
        exact hprev _ (by omega)
      have hkfail' : embedSingle m ((docs.drop (m.batchSize?.getD 32)).getD
          (k - m.batchSize?.getD 32) "") = .error ie := by
        rw [getD_drop]
        have he3 : m.batchSize?.getD 32 + (k - m.batchSize?.getD 32) = k := by
          omega
        rw [he3]
        exact hkfail
      rw [ih _ hdlt (docs.drop (m.batchSize?.getD 32))
        (k - m.batchSize?.getD 32) rfl (by rw [List.length_drop]; omega)
        hbf' hprev' hkfail']
      rfl

/-! ## String containment lemmas -/

theorem strToList_append (a b : String) :
    (a ++ b).toList = a.toList ++ b.toList :=
  String.data_append a b

theorem strContains_refl (s : String) : strContains s s :=
  List.infix_refl s.toList

theorem strContains_trans {a b c : String} (h1 : strContains a b)
    (h2 : strContains b c) : strContains a c :=
  List.IsInfix.trans h1 h2

theorem strContains_append_right (n h h2 : String) (hc : strContains n h) :
    strContains n (h ++ h2) := by
  unfold strContains at *
  rw [strToList_append]
  exact hc.trans (List.IsPrefix.isInfix (List.prefix_append _ _))

theorem strContains_append_left (n h h2 : String) (hc : strContains n h) :
    strContains n (h2 ++ h) := by
  unfold strContains at *
  rw [strToList_append]
  exact hc.trans (List.IsSuffix.isInfix (List.suffix_append _ _))

theorem strContains_pyQuote (s : String) : strContains s (pyQuote s) := by
  unfold pyQuote
  exact strContains_append_right _ _ _
    (strContains_append_left _ _ _ (strContains_refl s))

theorem strContains_joinSep (sep : String) (l : List String) (c : String)
    (hc : c ∈ l) : strContains c (joinSep sep l) := by
  induction l with
  | nil => cases hc
  | cons x xs ih =>
    cases xs with
    | nil =>
      have he : c = x := by simpa using hc
      subst he
      exact strContains_refl c
    | cons y ys =>
      rcases List.mem_cons.mp hc with h1 | h2
      · subst h1
        show strContains c (c ++ sep ++ joinSep sep (y :: ys))
        exact strContains_append_right _ _ _
          (strContains_append_right _ _ _ (strContains_refl c))
      · show strContains c (x ++ sep ++ joinSep sep (y :: ys))
        exact strContains_append_left _ _ _ (ih h2)

theorem strContains_pyListRepr (l : List String) (c : String) (hc : c ∈ l) :
    strContains c (pyListRepr l) := by
  unfold pyListRepr
  apply strContains_append_right
  apply strContains_append_left
  exact strContains_trans (strContains_pyQuote c)
    (strContains_joinSep ", " (l.map pyQuote) (pyQuote c)
      (List.mem_map_of_mem _ hc))

theorem strContains_indexRepr (cols : List String) (c : String)
    (hc : c ∈ cols) : strContains c (indexRepr cols) := by
  unfold indexRepr
  apply strContains_append_right
  apply strContains_append_right
  apply strContains_append_right
  apply strContains_append_left
  exact strContains_pyListRepr cols c hc

/-! ## The claims -/

/-- C8: `row_to_document` is a pure, total, deterministic serializer: on
any row, viewed as the ordered column-to-value mapping a Series is, it
produces the newline-joined `"<column>: <value>"` lines in the row's
column order, and the row `{"a": 1, "b": "x"}` serializes to exactly
`"a: 1\nb: x"`. -/
theorem C8_row_to_document :
    row_to_document [("a", "1"), ("b", "x")] = "a: 1\nb: x"
    ∧ ∀ row : List (String × String),
        row_to_document row
          = joinSep "\n" (row.map (fun fv => fv.1 ++ ": " ++ fv.2)) := by
  constructor
  · decide
  · intro row
    simp only [row_to_document]
    rw [List.zip_map', List.map_map]
    rfl

theorem C8_witness : row_to_document [("c", "2"), ("d", "y")] = "c: 2\nd: y" := by
  rw [C8_row_to_document.2 [("c", "2"), ("d", "y")]]
  decide

/-- C5 (counterexample): with a stored configuration whose input-columns
list is empty, target `"target"`, and a dataframe with columns
`["a","b","target"]`, the effective input-column set of line 173 is not
`["a","b"]`. -/
theorem C5_counterexample :
    ¬ (effectiveInputColumns
        [("input_columns", JVal.ls []), ("target", JVal.s "target")]
        ["a", "b", "target"] = ["a", "b"]) := by
  decide

/-- C5 (amended): the `or` of line 173 falls through to all columns of
the prediction input, the target column included: the effective set is
`["a","b","target"]`, and the documents are built from all three
columns (the run below embeds the document `"a: 1\nb: 2\ntarget: 9"`,
19 characters long, not the 9-character two-column document). -/
theorem C5_amended :
    effectiveInputColumns
      [("input_columns", JVal.ls []), ("target", JVal.s "target")]
      ["a", "b", "target"] = ["a", "b", "target"]
    ∧ (predict (EMBEDDING_MODELS [])
        ⟨some 32, fun _ => none, fun d => .ok [(d.length : Int)]⟩
        [("input_columns", JVal.ls []), ("target", JVal.s "target")]
        ⟨["a", "b", "target"], [["1", "2", "9"]]⟩).1
      = .ok ⟨⟨["a", "b", "target"], [["1", "2", "9"]]⟩, "target", [[19]]⟩ := by
  constructor
  · decide
  · decide

theorem dictGet_mem {β : Type} (a : Dict β) (k : String) (v : β)
    (h : dictGet a k = some v) : (k, v) ∈ a := by
  induction a with
  | nil => simp [dictGet] at h
  | cons p t ih =>
    obtain ⟨k', v'⟩ := p
    by_cases hk : k' = k
    · subst hk
      simp [dictGet] at h
      subst h
      exact List.mem_cons_self _ _
    · simp [dictGet, hk] at h
      exact List.mem_cons_of_mem _ (ih h)

theorem resolveClass_idem (M : Dict String)
    (hfix : ∀ p ∈ M, resolveClass M p.2 = p.2) (c : String) :
    resolveClass M (resolveClass M c) = resolveClass M c := by
  cases hl : dictGet M c with
  | none =>
    have h1 : resolveClass M c = c := by unfold resolveClass; rw [hl]
    rw [h1, h1]
  | some v =>
    have h1 : resolveClass M c = v := by unfold resolveClass; rw [hl]
    rw [h1]
    exact hfix (c, v) (dictGet_mem M c v hl)

/-- C6 (counterexample): `construct_model_from_args` does not extract
`target` and `class` on a working copy — the `pop` calls of lines 84–85
remove both keys from the caller's mapping in place, so during
resolution the caller's dict no longer holds them. -/
theorem C6_counterexample :
    dictGet (argsAfterExtraction
        [("target", JVal.s "t"), ("class", JVal.s "VLLM"),
          ("api_key", JVal.s "k")]) "target" = none
    ∧ dictGet (argsAfterExtraction
        [("target", JVal.s "t"), ("class", JVal.s "VLLM"),
          ("api_key", JVal.s "k")]) "class" = none
    ∧ dictGet [("target", JVal.s "t"), ("class", JVal.s "VLLM"),
        ("api_key", JVal.s "k")] "target" = some (JVal.s "t") := by
  decide

/-- C6 (amended): extraction of `target` and `class` happens by in-place
removal from the caller's configuration (not on a copy), and after
construction the configuration carries `target` re-attached and `class`
set to the canonicalized resolved identifier. -/
theorem C6_amended (M : Dict String) (args : Args) (t : String)
    (cls : String) (final : Args)
    (ht : dictGet args "target" = some (JVal.s t))
    (hc : construct_model_from_args M args = (cls, final)) :
    dictGet (argsAfterExtraction args) "target" = none
    ∧ dictGet (argsAfterExtraction args) "class" = none
    ∧ dictGet final "class" = some (JVal.s cls)
    ∧ dictGet final "target" = some (JVal.s t) := by
  simp only [construct_model_from_args] at hc
  rw [ht] at hc
  injection hc with h1 h2
  refine ⟨?_, ?_, ?_, ?_⟩
  · unfold argsAfterExtraction
    rw [dictGet_dictErase_ne _ "class" "target" (by decide),
      dictGet_dictErase_self]
  · unfold argsAfterExtraction
    rw [dictGet_dictErase_self]
  · rw [← h2, ← h1, dictGet_dictSet_self]
  · rw [← h2, dictGet_dictSet_ne _ "class" "target" _ (by decide),
      dictGet_dictSet_self]

theorem C6_amended_witness :
    dictGet (argsAfterExtraction
        [("target", JVal.s "t"), ("class", JVal.s "VLLM")]) "target" = none
    ∧ dictGet (argsAfterExtraction
        [("target", JVal.s "t"), ("class", JVal.s "VLLM")]) "class" = none
    ∧ dictGet [("target", JVal.s "t"), ("class", JVal.s "VLLMEmbeddings")]
        "class" = some (JVal.s "VLLMEmbeddings")
    ∧ dictGet [("target", JVal.s "t"), ("class", JVal.s "VLLMEmbeddings")]
        "target" = some (JVal.s "t") :=
  C6_amended (EMBEDDING_MODELS []) [("target", JVal.s "t"), ("class", JVal.s "VLLM")]
    "t" "VLLMEmbeddings" [("target", JVal.s "t"), ("class", JVal.s "VLLMEmbeddings")]
    (by decide) (by decide)

/-- C7: resolution is idempotent on resolved identifiers: constructing
from a configuration and then re-constructing from the returned
configuration (which holds the resolved `class`) yields the same
resolved backend identifier, whenever every identifier registered in
`EMBEDDING_MODELS` resolves to itself (true of the real registry, whose
class names all carry the `Embeddings` suffix while the stripped alias
keys do not). -/
theorem C7_construct_idempotent (classes : List String) (args : Args)
    (hfix : ∀ p ∈ EMBEDDING_MODELS classes,
      resolveClass (EMBEDDING_MODELS classes) p.2 = p.2) :
    (construct_model_from_args (EMBEDDING_MODELS classes)
        (construct_model_from_args (EMBEDDING_MODELS classes) args).2).1
      = (construct_model_from_args (EMBEDDING_MODELS classes) args).1 := by
  have hfinal : dictGet (construct_model_from_args (EMBEDDING_MODELS classes) args).2 "class"
      = some (JVal.s (construct_model_from_args (EMBEDDING_MODELS classes) args).1) := by
    show dictGet (dictSet _ "class" _) "class" = _
    rw [dictGet_dictSet_self]
    rfl
  have halias : getStrD (dictGet (dictErase
        (construct_model_from_args (EMBEDDING_MODELS classes) args).2 "target") "class")
        DEFAULT_EMBEDDING_CLASS
      = (construct_model_from_args (EMBEDDING_MODELS classes) args).1 := by
    rw [dictGet_dictErase_ne _ "target" "class" (by decide), hfinal]
    rfl
  have hfirst : ∀ a : Args,
      (construct_model_from_args (EMBEDDING_MODELS classes) a).1
        = resolveClass (EMBEDDING_MODELS classes)
            (getStrD (dictGet (dictErase a "target") "class")
              DEFAULT_EMBEDDING_CLASS) := fun a => rfl
  rw [hfirst ((construct_model_from_args (EMBEDDING_MODELS classes) args).2), halias,
    hfirst args]
  exact resolveClass_idem (EMBEDDING_MODELS classes) hfix _

theorem C7_witness :
    (construct_model_from_args (EMBEDDING_MODELS ["OpenAIEmbeddings"])
        (construct_model_from_args (EMBEDDING_MODELS ["OpenAIEmbeddings"])
          [("class", JVal.s "openai"), ("api_key", JVal.s "k")]).2).1
      = (construct_model_from_args (EMBEDDING_MODELS ["OpenAIEmbeddings"])
          [("class", JVal.s "openai"), ("api_key", JVal.s "k")]).1 :=
  C7_construct_idempotent ["OpenAIEmbeddings"]
    [("class", JVal.s "openai"), ("api_key", JVal.s "k")] (by decide)

/-- C9 (code bug): the `args` view does list the persisted configuration
as key/value pairs, but the `metadata` view reads the storage key
`"model_class"`, which `create` never writes: after creating a model
with class alias `"VLLM"` (resolved identifier `"VLLMEmbeddings"`), the
metadata view's single row is `("model_class", None)` and does not name
the resolved identifier, which sits only in the args view under
`"class"`. -/
theorem C9_metadata_not_resolved :
    describe (create (EMBEDDING_MODELS []) "embeddings" none
        [("class", JVal.s "VLLM")] ⟨none, none⟩) (some "metadata")
      = ⟨["key", "value"], [["model_class", "None"]]⟩
    ∧ describe (create (EMBEDDING_MODELS []) "embeddings" none
        [("class", JVal.s "VLLM")] ⟨none, none⟩) (some "args")
      = ⟨["key", "value"],
          [["input_columns", "[]"], ["class", "VLLMEmbeddings"],
            ["target", "embeddings"]]⟩
    ∧ "None" ≠ "VLLMEmbeddings" := by
  refine ⟨?_, ?_, ?_⟩ <;> decide

/-- C10: `predict` reassigns the caller's dataframe's column labels in
place (line 170) before any embedding work — whatever backend is plugged
in, and whether the call succeeds or fails, the caller is left holding a
dataframe whose every column label is backquote-stripped and whose rows
are untouched — while the appended-target result is a separate copy
extending the normalized dataframe. -/
theorem C10_predict_mutates_columns (M : Dict String) (sa : Args)
    (df : DataFrame) (target : String)
    (ht : dictGet (construct_model_from_args M sa).2 "target"
      = some (JVal.s target)) :
    (∀ m : EmbModel, (predict M m sa df).2
      = ⟨df.columns.map stripBackquotes, df.rows⟩)
    ∧ ∀ (m : EmbModel) (r : PredictResult),
        (predict M m sa df).1 = .ok r →
          r.base = ⟨df.columns.map stripBackquotes, df.rows⟩ := by
  constructor
  · intro m
    simp only [predict, ht]
    split
    · split <;> rfl
    · rfl
  · intro m r h
    simp only [predict, ht] at h
    split at h
    · split at h
      · injection h with h1
        rw [← h1]
      · exact absurd h (by simp)
    · exact absurd h (by simp)

theorem C10_witness :
    (∀ m : EmbModel,
      (predict (EMBEDDING_MODELS [])
        m [("target", JVal.s "emb")]
        ⟨[String.mk [backquoteChar, 'a', backquoteChar], "b"], [["1", "2"]]⟩).2
      = ⟨["a", "b"], [["1", "2"]]⟩)
    ∧ ∀ (m : EmbModel) (r : PredictResult),
        (predict (EMBEDDING_MODELS [])
          m [("target", JVal.s "emb")]
          ⟨[String.mk [backquoteChar, 'a', backquoteChar], "b"], [["1", "2"]]⟩).1
          = .ok r →
          r.base = ⟨["a", "b"], [["1", "2"]]⟩ := by
  have h := C10_predict_mutates_columns (EMBEDDING_MODELS [])
    [("target", JVal.s "emb")]
    ⟨[String.mk [backquoteChar, 'a', backquoteChar], "b"], [["1", "2"]]⟩
    "emb" (by decide)
  have he : ([String.mk [backquoteChar, 'a', backquoteChar], "b"]).map stripBackquotes
      = ["a", "b"] := by decide
  constructor
  · intro m
    rw [h.1 m, he]
  · intro m r hr
    rw [h.2 m r hr, he]

/-- C4: when the resolved input-column set contains a column absent from
the (normalized) dataframe, `predict` fails — for every backend, i.e.
before any embedding call — with the line-179 message, and that message
contains each missing column name and each available column name
verbatim. -/
theorem C4_missing_columns (M : Dict String) (sa : Args) (df : DataFrame)
    (target : String) (uargs : Args) (cols ics : List String)
    (hu : uargs = (construct_model_from_args M sa).2)
    (ht : dictGet uargs "target" = some (JVal.s target))
    (hcols : cols = df.columns.map stripBackquotes)
    (hics : ics = effectiveInputColumns uargs cols)
    (hmiss : ics.all (fun col => cols.contains col) = false) :
    ∃ msg : String,
      (∀ m : EmbModel, (predict M m sa df).1 = .error msg)
      ∧ (∀ c ∈ ics, ¬ c ∈ cols → strContains c msg)
      ∧ (∀ c ∈ cols, strContains c msg) := by
  subst hu hcols hics
  refine ⟨"Input columns "
      ++ pyListRepr (effectiveInputColumns (construct_model_from_args M sa).2
        (df.columns.map stripBackquotes))
      ++ " not found in the input dataframe. Available columns are "
      ++ indexRepr (df.columns.map stripBackquotes), ?_, ?_, ?_⟩
  · intro m
    simp only [predict, ht, hmiss]
    rfl
  · intro c hc _
    apply strContains_append_right
    apply strContains_append_right
    apply strContains_append_left
    exact strContains_pyListRepr _ c hc
  · intro c hc
    apply strContains_append_left
    exact strContains_indexRepr _ c hc

theorem C4_witness :
    ∃ msg : String,
      (∀ m : EmbModel,
        (predict (EMBEDDING_MODELS []) m
          [("target", JVal.s "emb"), ("input_columns", JVal.ls ["a", "zz"])]
          ⟨["a", "b"], [["1", "2"]]⟩).1 = .error msg)
      ∧ (∀ c ∈ (["a", "zz"] : List String), ¬ c ∈ (["a", "b"] : List String) →
          strContains c msg)
      ∧ (∀ c ∈ (["a", "b"] : List String), strContains c msg) :=
  C4_missing_columns (EMBEDDING_MODELS [])
    [("target", JVal.s "emb"), ("input_columns", JVal.ls ["a", "zz"])]
    ⟨["a", "b"], [["1", "2"]]⟩ "emb" _ ["a", "b"] ["a", "zz"]
    rfl (by decide) (by decide) (by decide) (by decide)

/-- C1: when the backend never fails — every batch-level call succeeds
and each document embeds deterministically to `f d` — `predict`'s batch
executor partitions the serialized documents into contiguous batches of
the model's advertised batch size (else 32), processes them in input
order, and returns exactly one vector per input row, in row order:
the result column is `docs.map f` for `docs` the per-row documents. -/
theorem C1_batch_executor (M : Dict String) (m : EmbModel) (sa : Args)
    (df : DataFrame) (target : String) (uargs : Args)
    (cols ics docs : List String) (bs : Nat) (f : String → Vector)
    (hu : uargs = (construct_model_from_args M sa).2)
    (ht : dictGet uargs "target" = some (JVal.s target))
    (hcols : cols = df.columns.map stripBackquotes)
    (hics : ics = effectiveInputColumns uargs cols)
    (hvalid : ics.all (fun col => cols.contains col) = true)
    (hdocs : docs = df.rows.map (rowDoc cols ics))
    (hbsv : bs = m.batchSize?.getD 32) (hbs : 0 < bs)
    (hbatch : ∀ ts, m.batchErr ts = none)
    (hf : ∀ d, m.embedDoc d = .ok (f d)) :
    (predict M m sa df).1 = .ok ⟨⟨cols, df.rows⟩, target, docs.map f⟩
    ∧ (docs.map f).length = df.rows.length
    ∧ (batchesOf bs docs).flatten = docs
    ∧ (∀ b ∈ batchesOf bs docs, b.length ≤ bs)
    ∧ (∀ b ∈ (batchesOf bs docs).dropLast, b.length = bs) := by
  subst hu hcols hics hdocs hbsv
  refine ⟨?_, ?_, batchesOf_flatten _ _ hbs, batchesOf_length_le _ _,
    batchesOf_dropLast_length _ _ hbs⟩
  · simp only [predict, ht, hvalid]
    rw [batchLoop_map m f _ df.rows hbs (fun d => hbatch [d]) hf]
    rfl
  · rw [List.length_map, List.length_map]

theorem C1_witness :
    (predict (EMBEDDING_MODELS [])
        ⟨some 2, fun _ => none, fun d => .ok [(d.length : Int)]⟩
        [("target", JVal.s "emb"), ("input_columns", JVal.ls ["a"])]
        ⟨["a", "b"], [["x", "y"], ["zz", "w"], ["q", "r"]]⟩).1
      = .ok ⟨⟨["a", "b"], [["x", "y"], ["zz", "w"], ["q", "r"]]⟩, "emb",
          (["a: x", "a: zz", "a: q"].map (fun d => [(d.length : Int)]))⟩
    ∧ ((["a: x", "a: zz", "a: q"] : List String).map
        (fun d => [(d.length : Int)])).length = 3
    ∧ (batchesOf 2 ["a: x", "a: zz", "a: q"]).flatten
        = ["a: x", "a: zz", "a: q"]
    ∧ (∀ b ∈ batchesOf 2 ["a: x", "a: zz", "a: q"], b.length ≤ 2)
    ∧ (∀ b ∈ (batchesOf 2 ["a: x", "a: zz", "a: q"]).dropLast,
        b.length = 2) := by
  have h := C1_batch_executor (EMBEDDING_MODELS [])
    ⟨some 2, fun _ => none, fun d => .ok [(d.length : Int)]⟩
    [("target", JVal.s "emb"), ("input_columns", JVal.ls ["a"])]
    ⟨["a", "b"], [["x", "y"], ["zz", "w"], ["q", "r"]]⟩ "emb" _
    ["a", "b"] ["a"] ["a: x", "a: zz", "a: q"] 2 (fun d => [(d.length : Int)])
    rfl (by decide) (by decide) (by decide) (by decide) (by decide) rfl
    (by decide) (fun ts => rfl) (fun d => rfl)
  exact ⟨h.1, h.2.1, h.2.2.1, h.2.2.2.1, h.2.2.2.2⟩

/-- C2: a batch-level failure that is isolable — every document embeds
on its own — is invisible to the caller: `predict` with such a backend
returns exactly what `predict` with the same backend whose batch calls
all succeed returns (same vectors, same order, same mutated dataframe),
whatever the stored configuration and input. -/
theorem C2_batch_failure_invisible (M : Dict String) (m mOk : EmbModel)
    (sa : Args) (df : DataFrame) (f : String → Vector)
    (hbs : 0 < m.batchSize?.getD 32)
    (hsingle : ∀ d, m.batchErr [d] = none)
    (hf : ∀ d, m.embedDoc d = .ok (f d))
    (hmok : mOk = ⟨m.batchSize?, fun _ => none, m.embedDoc⟩) :
    predict M m sa df = predict M mOk sa df := by
  subst hmok
  simp only [predict]
  rw [batchLoop_map m f _ df.rows hbs hsingle hf]
  rw [batchLoop_map (⟨m.batchSize?, fun _ => none, m.embedDoc⟩ : EmbModel)
    f _ df.rows hbs (fun d => rfl) (fun d => hf d)]

theorem C2_witness :
    predict (EMBEDDING_MODELS [])
        ⟨some 2, fun ts => if ts.length ≤ 1 then none else some "batch down",
          fun d => .ok [(d.length : Int)]⟩
        [("target", JVal.s "emb"), ("input_columns", JVal.ls ["a"])]
        ⟨["a", "b"], [["x", "y"], ["zz", "w"], ["q", "r"]]⟩
      = predict (EMBEDDING_MODELS [])
        ⟨some 2, fun _ => none, fun d => .ok [(d.length : Int)]⟩
        [("target", JVal.s "emb"), ("input_columns", JVal.ls ["a"])]
        ⟨["a", "b"], [["x", "y"], ["zz", "w"], ["q", "r"]]⟩ :=
  C2_batch_failure_invisible (EMBEDDING_MODELS [])
    ⟨some 2, fun ts => if ts.length ≤ 1 then none else some "batch down",
      fun d => .ok [(d.length : Int)]⟩
    ⟨some 2, fun _ => none, fun d => .ok [(d.length : Int)]⟩
    [("target", JVal.s "emb"), ("input_columns", JVal.ls ["a"])]
    ⟨["a", "b"], [["x", "y"], ["zz", "w"], ["q", "r"]]⟩
    (fun d => [(d.length : Int)]) (by decide) (fun d => rfl) (fun d => rfl) rfl

/-- C3 (counterexample): the error `predict` raises when a document
fails even in the per-document fallback wraps the originating backend
error but does not name the failing document's global row index: here
the document at global row index 1 fails with `"boom"`, and the raised
message — `"Failed to generate embedding for document. Original error:
boom"` — does not contain the digit `1` (the index appears only in a log
line, line 215). -/
theorem C3_counterexample :
    (predict (EMBEDDING_MODELS [])
        ⟨some 2, fun ts => if ts.length ≤ 1 then none else some "batch down",
          fun d => if d = "t: v1" then .error "boom" else .ok [7]⟩
        [("target", JVal.s "emb"), ("input_columns", JVal.ls ["t"])]
        ⟨["t"], [["v0"], ["v1"], ["v2"]]⟩).1
      = .error "Failed to generate embedding for document. Original error: boom"
    ∧ ¬ strContains "1"
        "Failed to generate embedding for document. Original error: boom" := by
  constructor
  · decide
  · decide

/-- C3 (amended): if the document at global row index `k` fails to embed
even in the per-document fallback (all earlier documents embedding fine
on their own, `k`'s batch having failed at batch level), the whole
`predict` call aborts with the error of line 217 — which wraps the
originating backend error but does not include the row index, logged
only — and no vectors are returned: the accumulated partial results are
discarded with the raised exception. -/
theorem C3_doc_failure_aborts (M : Dict String) (m : EmbModel) (sa : Args)
    (df : DataFrame) (target : String) (uargs : Args)
    (cols ics docs : List String) (bs k : Nat) (bmsg ie : String)
    (hu : uargs = (construct_model_from_args M sa).2)
    (ht : dictGet uargs "target" = some (JVal.s target))
    (hcols : cols = df.columns.map stripBackquotes)
    (hics : ics = effectiveInputColumns uargs cols)
    (hvalid : ics.all (fun col => cols.contains col) = true)
    (hdocs : docs = df.rows.map (rowDoc cols ics))
    (hbsv : bs = m.batchSize?.getD 32) (hbs : 0 < bs)
    (hk : k < docs.length)
    (hbf : m.batchErr ((docs.drop (k / bs * bs)).take bs) = some bmsg)
    (hprev : ∀ j, j < k → ∃ v, embedSingle m (docs.getD j "") = .ok v)
    (hkfail : embedSingle m (docs.getD k "") = .error ie) :
    (predict M m sa df).1
      = .error ("Failed to generate embedding for document. Original error: "
        ++ ie) := by
  subst hu hcols hics hbsv hdocs
  simp only [predict, ht, hvalid]
  rw [batchLoop_eq_id m _ df.rows hbs]
  rw [batchLoop_fail m _ k bmsg ie hbs hk hbf hprev hkfail]
  rfl

theorem C3_witness :
    (predict (EMBEDDING_MODELS [])
        ⟨some 2, fun ts => if ts.length ≤ 1 then none else some "batch down",
          fun d => if d = "t: v1" then .error "boom" else .ok [7]⟩
        [("target", JVal.s "emb"), ("input_columns", JVal.ls ["t"])]
        ⟨["t"], [["v0"], ["v1"], ["v2"]]⟩).1
      = .error ("Failed to generate embedding for document. Original error: "
        ++ "boom") :=
  C3_doc_failure_aborts (EMBEDDING_MODELS [])
    ⟨some 2, fun ts => if ts.length ≤ 1 then none else some "batch down",
      fun d => if d = "t: v1" then .error "boom" else .ok [7]⟩
    [("target", JVal.s "emb"), ("input_columns", JVal.ls ["t"])]
    ⟨["t"], [["v0"], ["v1"], ["v2"]]⟩ "emb" _ ["t"] ["t"]
    ["t: v0", "t: v1", "t: v2"] 2 1 "batch down" "boom"
    rfl (by decide) (by decide) (by decide) (by decide) (by decide) rfl
    (by decide) (by decide) (by decide)
    (fun j hj => ⟨[7], by
      have hj0 : j = 0 := by omega
      subst hj0
      decide⟩)
    (by decide)
